import Mathlib

/-!
Verification of the two indicator engines specified for the
`theory_craft_ta` repository (Parabolic SAR and HT_TRENDLINE), and of the
fixture-generation script `test_ht_trendline.py`.

The repository itself contains only the two oracle scripts that call the
external `ta-lib` reference library; the engine code the spec describes is
not present, so the engines are modelled from the specification text
(section 4 of the spec), with prices as rationals and the not-a-number
sentinel as `Option.none`.
-/

namespace TheoryCraftTA

/-- Modelled from the spec: the error taxonomy of section 7.  The only
failure the SAR engine can produce is `InvalidInput`, raised for mismatched
high/low lengths. -/
inductive SarError : Type where
  | invalidInput : SarError
deriving DecidableEq

/-- Modelled from the spec: the SAR engine state of section 3, carried from
bar to bar: current SAR value, extreme point, acceleration factor and trend
direction (`isLong = true` for an uptrend). -/
structure SarState : Type where
  isLong : Bool
  sar : ℚ
  ep : ℚ
  af : ℚ
deriving DecidableEq

/-- Modelled from the spec: everything the engine computes at one bar
(`i ≥ 2`): the state entering the bar, the two prior bars and the current
bar as (high, low) pairs, the clamped tentative SAR level against which the
crossing test is made, the emitted SAR value, whether a reversal happened,
and the state after the bar. -/
structure SarBarResult : Type where
  before : SarState
  pPrev2 : ℚ × ℚ
  pPrev1 : ℚ × ℚ
  pCur : ℚ × ℚ
  level : ℚ
  out : ℚ
  reversed : Bool
  after : SarState
deriving DecidableEq

/-- Modelled from the spec: the acceleration-factor increment of section
4.1: on a new extreme the factor is incremented by `a0`, capped at `aMax`;
a factor already at or beyond the cap "simply never increments further". -/
def sarIncAF (a0 aMax af : ℚ) : ℚ :=
  if aMax ≤ af then af else min (af + a0) aMax

/-- Modelled from the spec: the per-bar SAR recurrence of section 4.1 for
bar `i ≥ 2`.  `p2`, `p1`, `p` are bars `i-2`, `i-1`, `i` as (high, low)
pairs.  Tentative SAR is `priorSAR + AF * (EP - priorSAR)`, clamped so it
never penetrates the prior two bars' opposing extreme; a reversal is
detected when the bar's price crosses the clamped SAR (uptrend ends when
`low[i] < SAR`, downtrend when `high[i] > SAR`); on reversal the direction
flips, SAR resets to the old extreme point (which is the value emitted for
the bar), the acceleration factor resets to `a0` and the extreme point
resets to the bar's defining extreme; otherwise the clamped SAR is emitted
and the extreme point / acceleration factor are updated when the bar sets a
new extreme. -/
def sarStep (a0 aMax : ℚ) (p2 p1 p : ℚ × ℚ) (s : SarState) : SarBarResult :=
  let tent := s.sar + s.af * (s.ep - s.sar)
  if s.isLong then
    let lvl := min tent (min p1.2 p2.2)
    if p.2 < lvl then
      { before := s, pPrev2 := p2, pPrev1 := p1, pCur := p, level := lvl,
        out := s.ep, reversed := true,
        after := ⟨false, s.ep, p.2, a0⟩ }
    else
      let ep' := if s.ep < p.1 then p.1 else s.ep
      let af' := if s.ep < p.1 then sarIncAF a0 aMax s.af else s.af
      { before := s, pPrev2 := p2, pPrev1 := p1, pCur := p, level := lvl,
        out := lvl, reversed := false,
        after := ⟨true, lvl, ep', af'⟩ }
  else
    let lvl := max tent (max p1.1 p2.1)
    if lvl < p.1 then
      { before := s, pPrev2 := p2, pPrev1 := p1, pCur := p, level := lvl,
        out := s.ep, reversed := true,
        after := ⟨true, s.ep, p.1, a0⟩ }
    else
      let ep' := if p.2 < s.ep then p.2 else s.ep
      let af' := if p.2 < s.ep then sarIncAF a0 aMax s.af else s.af
      { before := s, pPrev2 := p2, pPrev1 := p1, pCur := p, level := lvl,
        out := lvl, reversed := false,
        after := ⟨false, lvl, ep', af'⟩ }

/-- Modelled from the spec: the single forward pass of the SAR engine over
the bars from index 2 on, threading the state and remembering, at each bar,
the two preceding bars of the input. -/
def sarRun (a0 aMax : ℚ) (s : SarState) (p2 p1 : ℚ × ℚ) :
    List (ℚ × ℚ) → List SarBarResult
  | [] => []
  | p :: rest =>
      let r := sarStep a0 aMax p2 p1 p s
      r :: sarRun a0 aMax r.after p1 p rest

/-- Modelled from the spec: the SAR initial state of section 4.1 for
`N ≥ 2`, built from bars 0 and 1: uptrend iff `high[1] ≥ high[0]`;
`currentSAR` seeded from the opposite extreme of bar 0 (`low[0]` in an
uptrend, `high[0]` in a downtrend); the extreme point seeded from the
defining extreme of bar 1; the acceleration factor starts at `a0`. -/
def sarInit (p0 p1 : ℚ × ℚ) (a0 : ℚ) : SarState :=
  ⟨decide (p0.1 ≤ p1.1),
   if p0.1 ≤ p1.1 then p0.2 else p0.1,
   if p0.1 ≤ p1.1 then p1.1 else p1.2,
   a0⟩

/-- The full per-bar trace of one SAR pass (bars 2 … N-1) over the paired
(high, low) bar list; empty when fewer than three bars exist. -/
def sarResultsP (bars : List (ℚ × ℚ)) (a0 aMax : ℚ) : List SarBarResult :=
  match bars with
  | p0 :: p1 :: rest => sarRun a0 aMax (sarInit p0 p1 a0) p0 p1 rest
  | _ => []

/-- The full per-bar trace of one SAR pass on separate high/low series. -/
def sarResults (high low : List ℚ) (a0 aMax : ℚ) : List SarBarResult :=
  sarResultsP (high.zip low) a0 aMax

/-- Every acceleration-factor value the engine holds during a pass over the
paired bar list: the seed `a0` followed by the factor after each processed
bar. -/
def sarAFsP (bars : List (ℚ × ℚ)) (a0 aMax : ℚ) : List ℚ :=
  match bars with
  | p0 :: p1 :: rest =>
      a0 :: (sarRun a0 aMax (sarInit p0 p1 a0) p0 p1 rest).map (fun r => r.after.af)
  | _ => []

/-- Every acceleration-factor value the engine holds during a pass on
separate high/low series. -/
def sarAFs (high low : List ℚ) (a0 aMax : ℚ) : List ℚ :=
  sarAFsP (high.zip low) a0 aMax

/-- Modelled from the spec: the SAR output series over the paired bar
list.  Index 0 is the not-a-number warm-up sentinel (`none`), index 1 is
the seeded SAR, indices 2 … N-1 come from the per-bar recurrence.  For a
single bar the sole value is oracle-defined; the spec records that the
oracle returns an input extreme as the seed, modelled here as the bar's
low. -/
def sarComputeP (bars : List (ℚ × ℚ)) (a0 aMax : ℚ) : List (Option ℚ) :=
  match bars with
  | [] => []
  | [p0] => [some p0.2]
  | p0 :: p1 :: rest =>
      none :: some (sarInit p0 p1 a0).sar ::
        (sarRun a0 aMax (sarInit p0 p1 a0) p0 p1 rest).map (fun r => some r.out)

/-- The SAR output series on separate high/low series. -/
def sarCompute (high low : List ℚ) (a0 aMax : ℚ) : List (Option ℚ) :=
  sarComputeP (high.zip low) a0 aMax

/-- Modelled from the spec: the SAR entry point of section 6.  Fails with
`InvalidInput` when the high and low series differ in length (delivering no
partial output); otherwise performs the single forward pass. -/
def sar (high low : List ℚ) (a0 aMax : ℚ) : Except SarError (List (Option ℚ)) :=
  if high.length = low.length then Except.ok (sarCompute high low a0 aMax)
  else Except.error SarError.invalidInput

/-- Modelled from the spec: the HT_TRENDLINE single forward pass.  The
internal multi-stage filter pipeline of section 4.2 advances its state on
every bar (`step`), but the emitted entry is the not-a-number sentinel for
the first 63 bars (the lookback) and the computed value afterwards.  The
filter coefficients are oracle constants not recorded in the repository, so
the per-bar numeric pipeline is kept as an explicit state-transition
parameter. -/
def htGo {σ : Type} (step : σ → ℚ → σ × ℚ) : σ → Nat → List ℚ → List (Option ℚ)
  | _, _, [] => []
  | s, i, p :: rest =>
      let n := step s p
      (if i < 63 then none else some n.2) :: htGo step n.1 (i + 1) rest

/-- Modelled from the spec: the HT_TRENDLINE entry point of section 6:
one output entry per input bar, the first 63 flagged undefined, state
carried strictly forward within the pass. -/
def htTrendline {σ : Type} (step : σ → ℚ → σ × ℚ) (init : σ) (price : List ℚ) :
    List (Option ℚ) :=
  htGo step init 0 price

/-- The numpy global generator state as seen by `test_ht_trendline.py`:
only the seed matters to the model. -/
structure RngState : Type where
  seed : Nat

/-- `np.random.seed(n)`: resets the global generator state, discarding
whatever state the process had before. -/
def npRandomSeed (n : Nat) (_w : RngState) : RngState := ⟨n⟩

/-- `np.random.uniform(50, 150, count)`: draws `count` samples as a pure
function of the generator state.  The generator algorithm itself is
external to the repository and is passed in as the deterministic stream
`gen : seed → index → value`. -/
def npUniform (gen : Nat → Nat → ℚ) (count : Nat) (w : RngState) : List ℚ :=
  (List.range count).map (gen w.seed)

/-- One output line of the fixture writer: the literal token `NaN` for an
undefined entry, otherwise the formatted value. -/
def fmtOpt (fmt : ℚ → String) : Option ℚ → String
  | none => "NaN"
  | some v => fmt v

/-- The fixture file body written by `test_ht_trendline.py`: header lines,
then one `index: value` line per input sample in ascending index order,
then the output section with `NaN` for undefined entries. -/
def fixtureLines (fmt : ℚ → String) (data : List ℚ) (result : List (Option ℚ)) :
    List String :=
  ["=== 100 Point Test Data ===", "Input:"]
    ++ data.enum.map (fun p => toString p.1 ++ ": " ++ fmt p.2)
    ++ ["", "Output:"]
    ++ result.enum.map (fun p => toString p.1 ++ ": " ++ fmtOpt fmt p.2)

/-- The run of `test_ht_trendline.py` as far as the fixture file is
concerned: seed the generator with 42, draw 100 samples, run HT_TRENDLINE
on them, and render the fixture lines.  The external collaborators (the
numpy generator stream, the ta-lib HT_TRENDLINE oracle, the float
formatter) are explicit parameters; `w` is the generator state the process
happened to have before the run. -/
def scriptFixture (gen : Nat → Nat → ℚ) (ht : List ℚ → List (Option ℚ))
    (fmt : ℚ → String) (w : RngState) : List String :=
  let w1 := npRandomSeed 42 w
  let data := npUniform gen 100 w1
  fixtureLines fmt data (ht data)

/-- The bar-2 step result of the three-bar uptrend used as a concrete
instance of the clamp bound. -/
def sampleBar : SarBarResult :=
  sarStep (1/50) (1/5) (10, 8) (11, 9) (12, 10) (sarInit (10, 8) (11, 9) (1/50))

/-! ## Helper lemmas -/

theorem sarRun_length (a0 aMax : ℚ) :
    ∀ (bars : List (ℚ × ℚ)) (p2 p1 : ℚ × ℚ) (s : SarState),
      (sarRun a0 aMax s p2 p1 bars).length = bars.length := by
  intro bars
  induction bars with
  | nil => intro p2 p1 s; rfl
  | cons p rest ih =>
      intro p2 p1 s
      simp only [sarRun, List.length_cons, ih]

/-- Every entry of a SAR pass satisfies `P` provided each single step
preserves a state invariant `inv` and produces a `P`-entry from an
`inv`-state. -/
theorem sarRun_invariant (a0 aMax : ℚ) (P : SarBarResult → Prop)
    (inv : SarState → Prop)
    (hstep : ∀ p2 p1 p s, inv s →
      P (sarStep a0 aMax p2 p1 p s) ∧ inv (sarStep a0 aMax p2 p1 p s).after) :
    ∀ (bars : List (ℚ × ℚ)) (p2 p1 : ℚ × ℚ) (s : SarState), inv s →
      ∀ r ∈ sarRun a0 aMax s p2 p1 bars, P r := by
  intro bars
  induction bars with
  | nil => intro p2 p1 s _ r hr; simp [sarRun] at hr
  | cons p rest ih =>
      intro p2 p1 s hs r hr
      simp only [sarRun, List.mem_cons] at hr
      rcases hr with h | h
      · exact h ▸ (hstep p2 p1 p s hs).1
      · exact ih p1 p _ (hstep p2 p1 p s hs).2 r h

theorem sarStep_long_rev (a0 aMax : ℚ) (p2 p1 p : ℚ × ℚ) (s : SarState)
    (hl : s.isLong = true)
    (hc : p.2 < min (s.sar + s.af * (s.ep - s.sar)) (min p1.2 p2.2)) :
    sarStep a0 aMax p2 p1 p s =
      { before := s, pPrev2 := p2, pPrev1 := p1, pCur := p,
        level := min (s.sar + s.af * (s.ep - s.sar)) (min p1.2 p2.2),
        out := s.ep, reversed := true,
        after := ⟨false, s.ep, p.2, a0⟩ } := by
  simp only [sarStep, hl, if_true, if_pos hc]

theorem sarStep_long_norev (a0 aMax : ℚ) (p2 p1 p : ℚ × ℚ) (s : SarState)
    (hl : s.isLong = true)
    (hc : ¬ p.2 < min (s.sar + s.af * (s.ep - s.sar)) (min p1.2 p2.2)) :
    sarStep a0 aMax p2 p1 p s =
      { before := s, pPrev2 := p2, pPrev1 := p1, pCur := p,
        level := min (s.sar + s.af * (s.ep - s.sar)) (min p1.2 p2.2),
        out := min (s.sar + s.af * (s.ep - s.sar)) (min p1.2 p2.2),
        reversed := false,
        after := ⟨true, min (s.sar + s.af * (s.ep - s.sar)) (min p1.2 p2.2),
          if s.ep < p.1 then p.1 else s.ep,
          if s.ep < p.1 then sarIncAF a0 aMax s.af else s.af⟩ } := by
  simp only [sarStep, hl, if_true, if_neg hc]

theorem sarStep_short_rev (a0 aMax : ℚ) (p2 p1 p : ℚ × ℚ) (s : SarState)
    (hl : s.isLong = false)
    (hc : max (s.sar + s.af * (s.ep - s.sar)) (max p1.1 p2.1) < p.1) :
    sarStep a0 aMax p2 p1 p s =
      { before := s, pPrev2 := p2, pPrev1 := p1, pCur := p,
        level := max (s.sar + s.af * (s.ep - s.sar)) (max p1.1 p2.1),
        out := s.ep, reversed := true,
        after := ⟨true, s.ep, p.1, a0⟩ } := by
  simp only [sarStep, hl, Bool.false_eq_true, if_false, if_pos hc]

theorem sarStep_short_norev (a0 aMax : ℚ) (p2 p1 p : ℚ × ℚ) (s : SarState)
    (hl : s.isLong = false)
    (hc : ¬ max (s.sar + s.af * (s.ep - s.sar)) (max p1.1 p2.1) < p.1) :
    sarStep a0 aMax p2 p1 p s =
      { before := s, pPrev2 := p2, pPrev1 := p1, pCur := p,
        level := max (s.sar + s.af * (s.ep - s.sar)) (max p1.1 p2.1),
        out := max (s.sar + s.af * (s.ep - s.sar)) (max p1.1 p2.1),
        reversed := false,
        after := ⟨false, max (s.sar + s.af * (s.ep - s.sar)) (max p1.1 p2.1),
          if p.2 < s.ep then p.2 else s.ep,
          if p.2 < s.ep then sarIncAF a0 aMax s.af else s.af⟩ } := by
  simp only [sarStep, hl, Bool.false_eq_true, if_false, if_neg hc]

theorem sarIncAF_le (a0 aMax af : ℚ) (h : af ≤ max a0 aMax) :
    sarIncAF a0 aMax af ≤ max a0 aMax := by
  unfold sarIncAF
  split
  · exact h
  · exact le_trans (min_le_right _ _) (le_max_right _ _)

theorem sarStep_after_af_le (a0 aMax : ℚ) (p2 p1 p : ℚ × ℚ) (s : SarState)
    (h : s.af ≤ max a0 aMax) :
    (sarStep a0 aMax p2 p1 p s).after.af ≤ max a0 aMax := by
  by_cases hl : s.isLong = true
  · by_cases hc : p.2 < min (s.sar + s.af * (s.ep - s.sar)) (min p1.2 p2.2)
    · rw [sarStep_long_rev a0 aMax p2 p1 p s hl hc]
      exact le_max_left _ _
    · rw [sarStep_long_norev a0 aMax p2 p1 p s hl hc]
      dsimp only
      split
      · exact sarIncAF_le a0 aMax s.af h
      · exact h
  · rw [Bool.not_eq_true] at hl
    by_cases hc : max (s.sar + s.af * (s.ep - s.sar)) (max p1.1 p2.1) < p.1
    · rw [sarStep_short_rev a0 aMax p2 p1 p s hl hc]
      exact le_max_left _ _
    · rw [sarStep_short_norev a0 aMax p2 p1 p s hl hc]
      dsimp only
      split
      · exact sarIncAF_le a0 aMax s.af h
      · exact h

theorem sarStep_clamp (a0 aMax : ℚ) (p2 p1 p : ℚ × ℚ) (s : SarState)
    (h : (sarStep a0 aMax p2 p1 p s).reversed = false) :
    ((sarStep a0 aMax p2 p1 p s).before.isLong = true →
      (sarStep a0 aMax p2 p1 p s).out ≤
        min (sarStep a0 aMax p2 p1 p s).pPrev1.2 (sarStep a0 aMax p2 p1 p s).pPrev2.2)
    ∧ ((sarStep a0 aMax p2 p1 p s).before.isLong = false →
      max (sarStep a0 aMax p2 p1 p s).pPrev1.1 (sarStep a0 aMax p2 p1 p s).pPrev2.1 ≤
        (sarStep a0 aMax p2 p1 p s).out) := by
  by_cases hl : s.isLong = true
  · by_cases hc : p.2 < min (s.sar + s.af * (s.ep - s.sar)) (min p1.2 p2.2)
    · rw [sarStep_long_rev a0 aMax p2 p1 p s hl hc] at h
      simp at h
    · rw [sarStep_long_norev a0 aMax p2 p1 p s hl hc]
      refine ⟨fun _ => min_le_right _ _, fun hfalse => ?_⟩
      rw [hl] at hfalse
      simp at hfalse
  · rw [Bool.not_eq_true] at hl
    by_cases hc : max (s.sar + s.af * (s.ep - s.sar)) (max p1.1 p2.1) < p.1
    · rw [sarStep_short_rev a0 aMax p2 p1 p s hl hc] at h
      simp at h
    · rw [sarStep_short_norev a0 aMax p2 p1 p s hl hc]
      refine ⟨fun htrue => ?_, fun _ => le_max_right _ _⟩
      rw [hl] at htrue
      simp at htrue

theorem sarStep_rev_cross (a0 aMax : ℚ) (p2 p1 p : ℚ × ℚ) (s : SarState)
    (h : (sarStep a0 aMax p2 p1 p s).reversed = true) :
    ((sarStep a0 aMax p2 p1 p s).before.isLong = true ∧
      (sarStep a0 aMax p2 p1 p s).pCur.2 < (sarStep a0 aMax p2 p1 p s).level)
    ∨ ((sarStep a0 aMax p2 p1 p s).before.isLong = false ∧
      (sarStep a0 aMax p2 p1 p s).level < (sarStep a0 aMax p2 p1 p s).pCur.1) := by
  by_cases hl : s.isLong = true
  · by_cases hc : p.2 < min (s.sar + s.af * (s.ep - s.sar)) (min p1.2 p2.2)
    · rw [sarStep_long_rev a0 aMax p2 p1 p s hl hc]
      exact Or.inl ⟨hl, hc⟩
    · rw [sarStep_long_norev a0 aMax p2 p1 p s hl hc] at h
      simp at h
  · rw [Bool.not_eq_true] at hl
    by_cases hc : max (s.sar + s.af * (s.ep - s.sar)) (max p1.1 p2.1) < p.1
    · rw [sarStep_short_rev a0 aMax p2 p1 p s hl hc]
      exact Or.inr ⟨hl, hc⟩
    · rw [sarStep_short_norev a0 aMax p2 p1 p s hl hc] at h
      simp at h

theorem sarStep_no_rev_of_incr (a0 aMax : ℚ) (p2 p1 p : ℚ × ℚ) (s : SarState)
    (hl : s.isLong = true) (hinc : p1.2 < p.2) :
    (sarStep a0 aMax p2 p1 p s).reversed = false ∧
      (sarStep a0 aMax p2 p1 p s).after.isLong = true := by
  have hlvl : min (s.sar + s.af * (s.ep - s.sar)) (min p1.2 p2.2) ≤ p1.2 :=
    le_trans (min_le_right _ _) (min_le_left _ _)
  have hnocross : ¬ p.2 < min (s.sar + s.af * (s.ep - s.sar)) (min p1.2 p2.2) :=
    not_lt.mpr (le_of_lt (lt_of_le_of_lt hlvl hinc))
  rw [sarStep_long_norev a0 aMax p2 p1 p s hl hnocross]
  exact ⟨rfl, rfl⟩

theorem sarRun_no_rev (a0 aMax : ℚ) :
    ∀ (bars : List (ℚ × ℚ)) (p2 p1 : ℚ × ℚ) (s : SarState),
      s.isLong = true →
      List.Chain' (fun a b : ℚ × ℚ => a.2 < b.2) (p1 :: bars) →
      ∀ r ∈ sarRun a0 aMax s p2 p1 bars, r.reversed = false := by
  intro bars
  induction bars with
  | nil => intro p2 p1 s _ _ r hr; simp [sarRun] at hr
  | cons p rest ih =>
      intro p2 p1 s hl hchain r hr
      have hinc : p1.2 < p.2 := (List.chain'_cons.mp hchain).1
      have hstep := sarStep_no_rev_of_incr a0 aMax p2 p1 p s hl hinc
      simp only [sarRun, List.mem_cons] at hr
      rcases hr with h | h
      · exact h ▸ hstep.1
      · exact ih p1 p _ hstep.2 (List.chain'_cons.mp hchain).2 r h

theorem htGo_length {σ : Type} (step : σ → ℚ → σ × ℚ) :
    ∀ (l : List ℚ) (s : σ) (i : Nat), (htGo step s i l).length = l.length := by
  intro l
  induction l with
  | nil => intro s i; rfl
  | cons p rest ih =>
      intro s i
      simp only [htGo, List.length_cons, ih]

theorem htGo_all_none {σ : Type} (step : σ → ℚ → σ × ℚ) :
    ∀ (l : List ℚ) (s : σ) (i : Nat), i + l.length ≤ 63 →
      ∀ x ∈ htGo step s i l, x = none := by
  intro l
  induction l with
  | nil => intro s i _ x hx; simp [htGo] at hx
  | cons p rest ih =>
      intro s i hle x hx
      simp only [htGo, List.mem_cons] at hx
      rcases hx with h | h
      · have : i < 63 := by
          simp only [List.length_cons] at hle
          omega
        rw [h, if_pos this]
      · exact ih (step s p).1 (i + 1)
          (by simp only [List.length_cons] at hle; omega) x h

theorem htGo_get {σ : Type} (step : σ → ℚ → σ × ℚ) :
    ∀ (l : List ℚ) (s : σ) (i j : Nat), j < l.length →
      (i + j < 63 → (htGo step s i l).get? j = some none) ∧
      (63 ≤ i + j → ∃ v, (htGo step s i l).get? j = some (some v)) := by
  intro l
  induction l with
  | nil => intro s i j hj; simp at hj
  | cons p rest ih =>
      intro s i j hj
      match j with
      | 0 =>
          constructor
          · intro hlt
            simp only [Nat.add_zero] at hlt
            simp [htGo, hlt]
          · intro hge
            simp only [Nat.add_zero] at hge
            exact ⟨(step s p).2, by simp [htGo, Nat.not_lt.mpr hge]⟩
      | Nat.succ j' =>
          have hj' : j' < rest.length := by
            simp only [List.length_cons] at hj; omega
          have := ih (step s p).1 (i + 1) j' hj'
          constructor
          · intro hlt
            simp only [htGo, List.get?_cons_succ]
            exact this.1 (by omega)
          · intro hge
            simp only [htGo, List.get?_cons_succ]
            exact this.2 (by omega)

theorem sarComputeP_length (bars : List (ℚ × ℚ)) (a0 aMax : ℚ) :
    (sarComputeP bars a0 aMax).length = bars.length := by
  match bars with
  | [] => rfl
  | [p0] => rfl
  | p0 :: p1 :: rest =>
      simp [sarComputeP, sarRun_length]

theorem sarAFsP_bounded (bars : List (ℚ × ℚ)) (a0 aMax : ℚ) :
    ∀ af ∈ sarAFsP bars a0 aMax, af ≤ max a0 aMax := by
  match bars with
  | [] => intro af haf; simp [sarAFsP] at haf
  | [p0] => intro af haf; simp [sarAFsP] at haf
  | p0 :: p1 :: rest =>
      intro af haf
      simp only [sarAFsP, List.mem_cons] at haf
      rcases haf with h | h
      · exact h ▸ le_max_left a0 aMax
      · rcases List.mem_map.mp h with ⟨r, hr, hfr⟩
        have := sarRun_invariant a0 aMax
          (fun r => r.after.af ≤ max a0 aMax)
          (fun s => s.af ≤ max a0 aMax)
          (fun p2 p1 p s hs =>
            ⟨sarStep_after_af_le a0 aMax p2 p1 p s hs,
             sarStep_after_af_le a0 aMax p2 p1 p s hs⟩)
          rest p0 p1 (sarInit p0 p1 a0) (le_max_left a0 aMax) r hr
        exact hfr ▸ this

theorem sarResultsP_clamp (bars : List (ℚ × ℚ)) (a0 aMax : ℚ) :
    ∀ r ∈ sarResultsP bars a0 aMax, r.reversed = false →
      (r.before.isLong = true → r.out ≤ min r.pPrev1.2 r.pPrev2.2)
      ∧ (r.before.isLong = false → max r.pPrev1.1 r.pPrev2.1 ≤ r.out) := by
  match bars with
  | [] => intro r hr; simp [sarResultsP] at hr
  | [p0] => intro r hr; simp [sarResultsP] at hr
  | p0 :: p1 :: rest =>
      intro r hr
      exact sarRun_invariant a0 aMax
        (fun r => r.reversed = false →
          (r.before.isLong = true → r.out ≤ min r.pPrev1.2 r.pPrev2.2)
          ∧ (r.before.isLong = false → max r.pPrev1.1 r.pPrev2.1 ≤ r.out))
        (fun _ => True)
        (fun p2 p1 p s _ =>
          ⟨fun hrev => sarStep_clamp a0 aMax p2 p1 p s hrev, trivial⟩)
        rest p0 p1 (sarInit p0 p1 a0) trivial r hr

theorem sarResultsP_cross (bars : List (ℚ × ℚ)) (a0 aMax : ℚ) :
    ∀ r ∈ sarResultsP bars a0 aMax, r.reversed = true →
      (r.before.isLong = true ∧ r.pCur.2 < r.level)
      ∨ (r.before.isLong = false ∧ r.level < r.pCur.1) := by
  match bars with
  | [] => intro r hr; simp [sarResultsP] at hr
  | [p0] => intro r hr; simp [sarResultsP] at hr
  | p0 :: p1 :: rest =>
      intro r hr
      exact sarRun_invariant a0 aMax
        (fun r => r.reversed = true →
          (r.before.isLong = true ∧ r.pCur.2 < r.level)
          ∨ (r.before.isLong = false ∧ r.level < r.pCur.1))
        (fun _ => True)
        (fun p2 p1 p s _ =>
          ⟨fun hrev => sarStep_rev_cross a0 aMax p2 p1 p s hrev, trivial⟩)
        rest p0 p1 (sarInit p0 p1 a0) trivial r hr

/-! ## Claim theorems -/

attribute [local semireducible] Rat.add Rat.mul Rat.sub Rat.inv

/-- C1: for every valid input (SAR: equal-length high/low series, including
empty; HT_TRENDLINE: any price series) the output series has exactly the
length of the input series, and on empty input both engines return an empty
series without error. -/
theorem length_preservation :
    (∀ (high low : List ℚ) (a0 aMax : ℚ), high.length = low.length →
      (sar high low a0 aMax).map List.length = Except.ok high.length)
    ∧ (∀ (σ : Type) (step : σ → ℚ → σ × ℚ) (init : σ) (price : List ℚ),
      (htTrendline step init price).length = price.length)
    ∧ (∀ a0 aMax : ℚ, sar [] [] a0 aMax = Except.ok [])
    ∧ (∀ (σ : Type) (step : σ → ℚ → σ × ℚ) (init : σ),
      htTrendline step init [] = []) := by
  refine ⟨?_, ?_, ?_, ?_⟩
  · intro high low a0 aMax hlen
    unfold sar
    rw [if_pos hlen]
    show Except.ok (sarComputeP (high.zip low) a0 aMax).length = Except.ok high.length
    rw [sarComputeP_length, List.length_zip, hlen, min_self]
  · intro σ step init price
    exact htGo_length step price init 0
  · intro a0 aMax
    rfl
  · intro σ step init
    rfl

/-- C1 witness: a concrete 2-bar valid input. -/
theorem length_preservation_witness :
    (sar [10, 11] [8, 9] (1/50) (1/5)).map List.length = Except.ok 2 :=
  length_preservation.1 [10, 11] [8, 9] (1/50) (1/5) rfl

/-- C2: the SAR engine fails with `InvalidInput` exactly when the high and
low series differ in length; the only possible error is `InvalidInput`; on
every other input the call succeeds, delivering the full output series (the
error constructor carries no partial output). -/
theorem sar_invalid_input_iff :
    ∀ (high low : List ℚ) (a0 aMax : ℚ),
      (sar high low a0 aMax = Except.error SarError.invalidInput ↔
        high.length ≠ low.length)
      ∧ (∀ e, sar high low a0 aMax = Except.error e → e = SarError.invalidInput)
      ∧ (high.length = low.length →
          sar high low a0 aMax = Except.ok (sarCompute high low a0 aMax)) := by
  intro high low a0 aMax
  by_cases h : high.length = low.length
  · refine ⟨?_, ?_, fun _ => by simp [sar, h]⟩
    · simp [sar, h]
    · intro e he
      simp [sar, h] at he
  · refine ⟨?_, fun e _ => by cases e; rfl, fun hc => absurd hc h⟩
    simp [sar, h]

/-- C2 witness: a concrete mismatched input fails with `InvalidInput`. -/
theorem sar_invalid_input_iff_witness :
    sar [10] [] (1/50) (1/5) = Except.error SarError.invalidInput :=
  (sar_invalid_input_iff [10] [] (1/50) (1/5)).1.mpr (by decide)

/-- C3 counterexample: with `acceleration = 1/4` and `maximum = 1/5` on a
3-bar uptrend the acceleration factor is `1/4 > 1/5` already at the seed
(and stays there: it "never increments further"), so the claim that the
factor never exceeds `maximum` even when `acceleration > maximum` is
false. -/
theorem af_cap_counterexample :
    ¬ (∀ af ∈ sarAFs [10, 11, 12] [8, 9, 10] (1/4) (1/5), af ≤ 1/5) := by
  decide

/-- C3 amended: the acceleration factor never exceeds
`max acceleration maximum` at any bar of the computation; in particular,
whenever `acceleration ≤ maximum` it never exceeds `maximum`, however many
consecutive new extremes occur.  (When `acceleration > maximum` the factor
starts at `acceleration` and never increments further.) -/
theorem af_bounded_by_max :
    ∀ (high low : List ℚ) (a0 aMax : ℚ),
      ∀ af ∈ sarAFs high low a0 aMax, af ≤ max a0 aMax := by
  intro high low a0 aMax
  exact sarAFsP_bounded (high.zip low) a0 aMax

/-- C3 witness: the seed factor of a concrete 2-bar run is bounded. -/
theorem af_bounded_by_max_witness :
    (1/50 : ℚ) ≤ max (1/50 : ℚ) (1/5) :=
  af_bounded_by_max [10, 11] [8, 9] (1/50) (1/5) (1/50) (by decide)

/-- C4 counterexample: on `high = [10, 19/2, 11]`, `low = [5, 8, 9]` with
default parameters the pass starts in a downtrend and reverses at bar 2,
emitting the old extreme point `8`; the bar violates both the downtrend
bound (`8 < max (19/2) 10`) and, read against the new uptrend run, the
uptrend bound (`8 > min 8 5`), so the claimed bound does not hold at every
bar of a run. -/
theorem clamp_bound_counterexample :
    ¬ (∀ r ∈ sarResults [10, 19/2, 11] [5, 8, 9] (1/50) (1/5),
        (r.before.isLong = true → r.out ≤ min r.pPrev1.2 r.pPrev2.2)
        ∧ (r.before.isLong = false → max r.pPrev1.1 r.pPrev2.1 ≤ r.out)) := by
  decide

/-- C4 amended: at every non-reversal bar `i ≥ 2` the emitted SAR respects
the clamp: in an uptrend `sar[i] ≤ min (low[i-1]) (low[i-2])`, in a
downtrend `sar[i] ≥ max (high[i-1]) (high[i-2])`.  (At a reversal bar the
engine emits the old extreme point instead, which may violate both
bounds.) -/
theorem clamp_bound_no_reversal :
    ∀ (high low : List ℚ) (a0 aMax : ℚ),
      ∀ r ∈ sarResults high low a0 aMax, r.reversed = false →
        (r.before.isLong = true → r.out ≤ min r.pPrev1.2 r.pPrev2.2)
        ∧ (r.before.isLong = false → max r.pPrev1.1 r.pPrev2.1 ≤ r.out) := by
  intro high low a0 aMax
  exact sarResultsP_clamp (high.zip low) a0 aMax

/-- C4 witness: the non-reversal bar 2 of a concrete 3-bar uptrend. -/
theorem clamp_bound_no_reversal_witness :
    (sampleBar.before.isLong = true →
      sampleBar.out ≤ min sampleBar.pPrev1.2 sampleBar.pPrev2.2)
    ∧ (sampleBar.before.isLong = false →
      max sampleBar.pPrev1.1 sampleBar.pPrev2.1 ≤ sampleBar.out) :=
  clamp_bound_no_reversal [10, 11, 12] [8, 9, 10] (1/50) (1/5) sampleBar
    (by decide) (by decide)

/-- C5: for `N < 64` every HT_TRENDLINE output entry is the not-a-number
sentinel; for `N ≥ 64` the entries at indices `0 … 62` are the sentinel and
every entry at indices `63 … N-1` is a defined value; short input is never
an error (the function is total). -/
theorem ht_warmup_structure :
    ∀ (σ : Type) (step : σ → ℚ → σ × ℚ) (init : σ) (price : List ℚ),
      (price.length < 64 → ∀ x ∈ htTrendline step init price, x = none)
      ∧ (∀ i, i < 63 → i < price.length →
          (htTrendline step init price).get? i = some none)
      ∧ (∀ i, 63 ≤ i → i < price.length →
          ∃ v, (htTrendline step init price).get? i = some (some v)) := by
  intro σ step init price
  refine ⟨?_, ?_, ?_⟩
  · intro hlen x hx
    exact htGo_all_none step price init 0 (by omega) x hx
  · intro i hi hilen
    exact (htGo_get step price init 0 i hilen).1 (by omega)
  · intro i hi hilen
    exact (htGo_get step price init 0 i hilen).2 (by omega)

/-- C5 witness: on a 64-sample series, entry 0 is the sentinel. -/
theorem ht_warmup_structure_witness :
    (htTrendline (fun (s : Unit) (p : ℚ) => (s, p)) () (List.replicate 64 1)).get? 0 =
      some none :=
  (ht_warmup_structure Unit (fun s p => (s, p)) () (List.replicate 64 1)).2.1 0
    (by omega) (by decide)

/-- C6: for every valid SAR input with `N ≥ 2` the engine runs from the
state described by the spec: uptrend iff `high[1] ≥ high[0]`; `currentSAR`
seeded from the opposite extreme of bar 0 (`low[0]` uptrend, `high[0]`
downtrend), which is also the value emitted at index 1; the extreme point
seeded from the defining extreme of bar 1; the acceleration factor starting
at `a0`. -/
theorem sar_initialization :
    ∀ (h0 h1 l0 l1 : ℚ) (hs ls : List ℚ) (a0 aMax : ℚ),
      hs.length = ls.length →
      sar (h0 :: h1 :: hs) (l0 :: l1 :: ls) a0 aMax =
        Except.ok (none :: some (if h0 ≤ h1 then l0 else h0) ::
          (sarRun a0 aMax
            ⟨decide (h0 ≤ h1),
             if h0 ≤ h1 then l0 else h0,
             if h0 ≤ h1 then h1 else l1,
             a0⟩
            (h0, l0) (h1, l1) (hs.zip ls)).map (fun r => some r.out)) := by
  intro h0 h1 l0 l1 hs ls a0 aMax hlen
  have hlen2 : (h0 :: h1 :: hs).length = (l0 :: l1 :: ls).length := by
    simp [hlen]
  unfold sar
  rw [if_pos hlen2]
  simp only [sarCompute, List.zip_cons_cons, sarComputeP, sarInit]

/-- C6 witness: a concrete 2-bar uptrend runs from the seeded state. -/
theorem sar_initialization_witness :
    sar [10, 11] [8, 9] (1/50) (1/5) = Except.ok [none, some 8] := by
  have h := sar_initialization 10 11 8 9 [] [] (1/50) (1/5) rfl
  simpa using h

/-- C7: when both highs and lows are strictly increasing at every bar, the
SAR engine never reverses over the whole pass; and in general a direction
flip occurs at a bar only when the bar's price crosses the current (clamped)
SAR level: an uptrend ends only when `low[i] < SAR`, a downtrend only when
`high[i] > SAR`. -/
theorem monotone_no_reversal :
    (∀ (high low : List ℚ) (a0 aMax : ℚ), high.length = low.length →
      List.Chain' (· < ·) high → List.Chain' (· < ·) low →
      ∀ r ∈ sarResults high low a0 aMax, r.reversed = false)
    ∧ (∀ (high low : List ℚ) (a0 aMax : ℚ),
      ∀ r ∈ sarResults high low a0 aMax, r.reversed = true →
        (r.before.isLong = true ∧ r.pCur.2 < r.level)
        ∨ (r.before.isLong = false ∧ r.level < r.pCur.1)) := by
  constructor
  · intro high low a0 aMax hlen hch hcl r hr
    match high, low, hlen with
    | [], [], _ => simp [sarResults, sarResultsP] at hr
    | [h0], [l0], _ => simp [sarResults, sarResultsP] at hr
    | h0 :: h1 :: hs, l0 :: l1 :: ls, hlen =>
        have hlen' : hs.length = ls.length := by
          simpa using hlen
        rw [sarResults, List.zip_cons_cons, List.zip_cons_cons, sarResultsP] at hr
        have hlong : (sarInit (h0, l0) (h1, l1) a0).isLong = true := by
          have h01 : h0 < h1 := (List.chain'_cons.mp hch).1
          simp [sarInit, le_of_lt h01]
        have hmap : ((h1, l1) :: hs.zip ls).map Prod.snd = l1 :: ls := by
          simp only [List.map_cons]
          rw [List.map_snd_zip hs ls (le_of_eq hlen'.symm)]
        have hchainz :
            List.Chain' (fun a b : ℚ × ℚ => a.2 < b.2) ((h1, l1) :: hs.zip ls) := by
          rw [← List.chain'_map (f := Prod.snd) (R := (· < ·)), hmap]
          exact (List.chain'_cons.mp hcl).2
        exact sarRun_no_rev a0 aMax (hs.zip ls) (h0, l0) (h1, l1)
          (sarInit (h0, l0) (h1, l1) a0) hlong hchainz r hr
  · intro high low a0 aMax
    exact sarResultsP_cross (high.zip low) a0 aMax

/-- C7 witness: no reversal happens at bar 2 of a concrete strictly
increasing 3-bar input. -/
theorem monotone_no_reversal_witness : sampleBar.reversed = false :=
  monotone_no_reversal.1 [10, 11, 12] [8, 9, 10] (1/50) (1/5) rfl
    (List.chain'_cons.mpr ⟨by decide, List.chain'_cons.mpr
      ⟨by decide, List.chain'_singleton _⟩⟩)
    (List.chain'_cons.mpr ⟨by decide, List.chain'_cons.mpr
      ⟨by decide, List.chain'_singleton _⟩⟩)
    sampleBar (by decide)

/-- C8: on the 1-bar input `high = [10]`, `low = [8]` with default
parameters the SAR engine succeeds with a single-element series (the seed
value itself is oracle-defined; the model returns the bar's low). -/
theorem sar_single_bar :
    sar [10] [8] (1/50) (1/5) = Except.ok [some 8] := rfl

/-- C10: the fixture-generation run of `test_ht_trendline.py` is
deterministic across runs: seeding the generator with the fixed value 42
erases any dependence on the generator state the process had before, so
two runs with the same (deterministic) generator stream, oracle and float
formatter produce identical fixture lines; undefined outputs render as the
literal token `NaN`. -/
theorem fixture_determinism :
    (∀ (gen : Nat → Nat → ℚ) (ht : List ℚ → List (Option ℚ))
        (fmt : ℚ → String) (w w' : RngState),
      scriptFixture gen ht fmt w = scriptFixture gen ht fmt w')
    ∧ (∀ fmt : ℚ → String, fmtOpt fmt none = "NaN") :=
  ⟨fun _ _ _ _ _ => rfl, fun _ => rfl⟩

end TheoryCraftTA
